import Mathlib

/-!
Verification of the publish/subscribe registry and singleton mechanisms of the
DesignPatterns repository.

The central component is `ThreadSafeSubject` from
`src/03. Observer Pattern/multithreaded_observer_example.py`:

* `attach(observer)` appends the observer to `self._observers` (under the lock);
* `detach(observer)` removes the first occurrence of the observer from
  `self._observers` if present, and is a no-op otherwise (under the lock);
* `notify(message)` copies `self._observers` under the lock, releases the lock,
  then calls `observer.update(self, message)` on each element of the copy in
  order, outside the lock.

Observer handles are opaque identities; we model them as natural numbers, with
list membership standing for Python's `in` (identity/equality test on the
list).  Messages are strings.  Since every mutation of the observer list
happens atomically under the single lock, a concurrent history reduces to a
sequential interleaving of atomic `attach`/`detach`/snapshot steps; the
concurrency claims are stated over arbitrary such interleavings.
-/

abbrev Obs := Nat
abbrev Msg := String

namespace ThreadSafeSubject

/-- `attach`: `self._observers.append(observer)` under the lock. -/
def attach (observers : List Obs) (o : Obs) : List Obs :=
  observers ++ [o]

/-- `detach`: `if observer in self._observers: self._observers.remove(observer)`
under the lock.  Python's `list.remove` deletes the first matching occurrence;
the membership guard makes the operation a no-op on an absent handle. -/
def detach (observers : List Obs) (o : Obs) : List Obs :=
  if o ∈ observers then observers.erase o else observers

/-- The snapshot taken inside `notify`: `observers_copy = self._observers.copy()`
under the lock.  A copy of a list has the same elements in the same order. -/
def snapshot (observers : List Obs) : List Obs :=
  observers

/-- The sequence of `observer.update(self, message)` invocations performed by
`notify(message)` when no update raises: one call per element of the snapshot,
in snapshot order. -/
def notifyCalls (observers : List Obs) (m : Msg) : List (Obs × Msg) :=
  (snapshot observers).map (fun o => (o, m))

/-- The `for observer in observers_copy: observer.update(self, message)` loop
of `notify`, where each observer's `update` may raise (`Except.error`).  The
result records the observers whose `update` was invoked, in order, and the
error of the first failing `update` (if any); the loop stops at that point and
the exception propagates unchanged — `notify` has no try/except. -/
def runUpdates (upd : Obs → Msg → Except String Unit) (m : Msg) :
    List Obs → List Obs × Option String
  | [] => ([], none)
  | o :: os =>
    match upd o m with
    | .error e => ([o], some e)
    | .ok _ =>
      let p := runUpdates upd m os
      (o :: p.1, p.2)

/-- A registry mutation performed by some thread: an `attach` or a `detach`
call, each atomic under the registry lock. -/
inductive Mutation where
  | attachOp (o : Obs)
  | detachOp (o : Obs)
deriving DecidableEq

def applyMutation (observers : List Obs) : Mutation → List Obs
  | .attachOp o => attach observers o
  | .detachOp o => detach observers o

def applyMutations (observers : List Obs) (ms : List Mutation) : List Obs :=
  ms.foldl applyMutation observers

/-- One `notify(m)` call starting from registry state `observers`, with the
mutations `ms` performed (by other threads, or by observers from inside their
own `update`) after the snapshot was taken.  The dispatch loop iterates over
the copy, so the calls made are determined by the snapshot alone; the registry
meanwhile evolves to `applyMutations observers ms`.  Returns (calls made,
final registry state). -/
def publishWithMidMutations (observers : List Obs) (ms : List Mutation)
    (m : Msg) : List (Obs × Msg) × List Obs :=
  (notifyCalls (snapshot observers) m, applyMutations observers ms)

/-- An atomic operation on the registry, as serialized by the lock: the
list-mutating section of `attach`/`detach`, or the snapshot step of `notify`
(which does not mutate the list; the dispatch loop runs outside the lock and
never touches `self._observers`). -/
inductive Op where
  | subscribeOp (o : Obs)
  | unsubscribeOp (o : Obs)
  | publishOp (m : Msg)
deriving DecidableEq

/-- Outcome of running a sequence of atomic operations: the final observer
list, the number of `attach` calls, and the number of `detach` calls that
actually removed an element (the membership guard succeeded). -/
structure RunStats where
  final : List Obs
  adds : Nat
  removes : Nat
deriving DecidableEq

/-- Run a serialized sequence of operations against a registry state,
counting adds and successful removes. -/
def runOps : List Op → List Obs → RunStats
  | [], st => ⟨st, 0, 0⟩
  | .subscribeOp o :: ops, st =>
    let r := runOps ops (attach st o)
    ⟨r.final, r.adds + 1, r.removes⟩
  | .unsubscribeOp o :: ops, st =>
    let r := runOps ops (detach st o)
    ⟨r.final, r.adds, r.removes + (if o ∈ st then 1 else 0)⟩
  | .publishOp _ :: ops, st => runOps ops st

end ThreadSafeSubject

namespace SimpleSubject

/-- `attach` of the basic (non-thread-safe) `Subject` in
`src/03. Observer Pattern/observer_pattern_example.py`:
`self._observers.append(observer)`. -/
def attach (observers : List Obs) (o : Obs) : List Obs :=
  observers ++ [o]

/-- `detach` of the basic `Subject`: a bare `self._observers.remove(observer)`.
Python's `list.remove` raises `ValueError` when the element is absent, so the
result is `none` (exception) exactly when the observer is not in the list. -/
def detach (observers : List Obs) (o : Obs) : Option (List Obs) :=
  if o ∈ observers then some (observers.erase o) else none

end SimpleSubject

section ObserverLemmas

open ThreadSafeSubject

theorem foldl_attach (hs : List Obs) (st : List Obs) :
    hs.foldl attach st = st ++ hs := by
  induction hs generalizing st with
  | nil => simp
  | cons h t ih =>
    simp [List.foldl_cons, ih, attach, List.append_assoc]

end ObserverLemmas

theorem mem_notifyCalls {st : List Obs} {o : Obs} {m' m : Msg} :
    (o, m') ∈ ThreadSafeSubject.notifyCalls st m ↔ o ∈ st ∧ m' = m := by
  simp [ThreadSafeSubject.notifyCalls, ThreadSafeSubject.snapshot, List.mem_map,
    Prod.ext_iff]
  aesop

theorem count_map_pair (st : List Obs) (H : Obs) (m : Msg) :
    (st.map (fun o => (o, m))).count (H, m) = st.count H := by
  induction st with
  | nil => rfl
  | cons a t ih =>
    by_cases h : a = H <;>
      simp [List.count_cons, ih, h, Prod.ext_iff]

/-- A concrete `update` function for exercising the error-propagation theorem:
observer 1 raises, every other observer returns normally. -/
def updEx : Obs → Msg → Except String Unit :=
  fun o _ => if o = 1 then Except.error "boom" else Except.ok ()

/-- A concrete operation sequence for exercising the interleaving theorem. -/
def opsEx : List ThreadSafeSubject.Op :=
  [ThreadSafeSubject.Op.subscribeOp 4, ThreadSafeSubject.Op.subscribeOp 5,
   ThreadSafeSubject.Op.publishOp "x", ThreadSafeSubject.Op.unsubscribeOp 5,
   ThreadSafeSubject.Op.unsubscribeOp 9]

/-- C1: subscribing H1..Hn on an initially empty registry and then publishing
`m` invokes `update` exactly once per registration, on exactly H1..Hn in that
order; `notify` returns (the call list is complete) only after all of them. -/
theorem C1_publish_notifies_all_in_order (hs : List Obs) (m : Msg) :
    ThreadSafeSubject.notifyCalls (hs.foldl ThreadSafeSubject.attach []) m
      = hs.map (fun h => (h, m)) := by
  rw [foldl_attach]
  simp [ThreadSafeSubject.notifyCalls, ThreadSafeSubject.snapshot]

/-- C2: `publish` dispatches from a point-in-time copy of the subscriber list.
A subscriber `o` absent at snapshot time and attached afterwards (here: among
the mutations `ms` performed after the snapshot, e.g. from inside another
subscriber's `update`) receives no call from this broadcast, while a
subscriber `o'` present at snapshot time and detached afterwards still
receives its call. -/
theorem C2_snapshot_isolation (st : List Obs) (ms : List ThreadSafeSubject.Mutation)
    (m : Msg) (o o' : Obs)
    (h1 : o ∉ st) (h2 : o' ∈ st)
    (_h3 : ThreadSafeSubject.Mutation.attachOp o ∈ ms)
    (_h4 : ThreadSafeSubject.Mutation.detachOp o' ∈ ms) :
    (o, m) ∉ (ThreadSafeSubject.publishWithMidMutations st ms m).1
    ∧ (o', m) ∈ (ThreadSafeSubject.publishWithMidMutations st ms m).1 := by
  constructor
  · intro hmem
    exact h1 (mem_notifyCalls.mp hmem).1
  · exact mem_notifyCalls.mpr ⟨h2, rfl⟩

/-- C2 witness: a concrete instance of the snapshot-isolation theorem. -/
theorem C2_witness :
    (7, "x") ∉ (ThreadSafeSubject.publishWithMidMutations [5]
        [ThreadSafeSubject.Mutation.attachOp 7, ThreadSafeSubject.Mutation.detachOp 5] "x").1
    ∧ (5, "x") ∈ (ThreadSafeSubject.publishWithMidMutations [5]
        [ThreadSafeSubject.Mutation.attachOp 7, ThreadSafeSubject.Mutation.detachOp 5] "x").1 :=
  C2_snapshot_isolation [5]
    [ThreadSafeSubject.Mutation.attachOp 7, ThreadSafeSubject.Mutation.detachOp 5]
    "x" 7 5 (by decide) (by decide) (by decide) (by decide)

/-- C3 counterexample: with registry state [0, 0] (handle 0 attached twice),
`detach 0` removes only the first occurrence, and the following publish still
invokes `update` on handle 0 — refuting the claim as universally stated over
every registry state. -/
theorem C3_counterexample :
    (0, "y") ∈ ThreadSafeSubject.notifyCalls (ThreadSafeSubject.detach [0, 0] 0) "y" := by
  decide

/-- C3 amended: for every handle H registered at most once in the current
state, `detach H` followed by `publish m` never invokes `update` on H. -/
theorem C3_amended_unsubscribe_then_publish (st : List Obs) (H : Obs) (m : Msg)
    (h : st.count H ≤ 1) :
    (H, m) ∉ ThreadSafeSubject.notifyCalls (ThreadSafeSubject.detach st H) m := by
  intro hmem
  have hmemd : H ∈ ThreadSafeSubject.detach st H := (mem_notifyCalls.mp hmem).1
  by_cases hst : H ∈ st
  · have hcount : (st.erase H).count H = st.count H - 1 := List.count_erase_self H st
    have hpos : 0 < (st.erase H).count H := by
      rw [List.count_pos_iff]
      simpa [ThreadSafeSubject.detach, hst] using hmemd
    have hone : 0 < st.count H := by
      rw [List.count_pos_iff]; exact hst
    omega
  · rw [ThreadSafeSubject.detach, if_neg hst] at hmemd
    exact hst hmemd

/-- C3 witness: a concrete instance of the amended theorem. -/
theorem C3_witness :
    (0, "y") ∉ ThreadSafeSubject.notifyCalls (ThreadSafeSubject.detach [0, 1] 0) "y" :=
  C3_amended_unsubscribe_then_publish [0, 1] 0 "y" (by decide)

/-- C4: `detach` on a handle not present in the registry returns normally (the
membership guard fails, `list.remove` is never reached, no exception) and
leaves the subscriber sequence exactly unchanged. -/
theorem C4_detach_absent_is_noop (st : List Obs) (o : Obs) (h : o ∉ st) :
    ThreadSafeSubject.detach st o = st := by
  simp [ThreadSafeSubject.detach, h]

/-- C4 witness: a concrete instance of the absent-detach no-op theorem. -/
theorem C4_witness : ThreadSafeSubject.detach [1, 2] 0 = [1, 2] :=
  C4_detach_absent_is_noop [1, 2] 0 (by decide)

/-- C5: duplicate subscriptions are kept, not deduplicated: after any sequence
of `attach` calls `hs` on an empty registry, a publish of `m` invokes `update`
on handle H exactly as many times as H occurs among the attach calls. -/
theorem C5_duplicate_subscriptions_duplicate_calls (hs : List Obs) (H : Obs) (m : Msg) :
    (ThreadSafeSubject.notifyCalls (hs.foldl ThreadSafeSubject.attach []) m).count (H, m)
      = hs.count H := by
  rw [foldl_attach]
  simpa [ThreadSafeSubject.notifyCalls, ThreadSafeSubject.snapshot] using
    count_map_pair hs H m

/-- C6: an exception raised by an observer's `update` during `notify` is not
caught, translated, retried or logged by the registry: the dispatch loop stops
at the failing observer and the same error propagates to the caller; every
observer strictly before the failing one in the snapshot has already been
invoked, and none after it is invoked. -/
theorem C6_error_propagates_after_prefix (upd : Obs → Msg → Except String Unit)
    (pre post : List Obs) (b : Obs) (m : Msg) (e : String)
    (hpre : ∀ o ∈ pre, upd o m = Except.ok ())
    (hb : upd b m = Except.error e) :
    ThreadSafeSubject.runUpdates upd m (pre ++ b :: post) = (pre ++ [b], some e) := by
  induction pre with
  | nil =>
    simp [ThreadSafeSubject.runUpdates, hb]
  | cons a t ih =>
    have ha : upd a m = Except.ok () := hpre a (by simp)
    have ht : ∀ o ∈ t, upd o m = Except.ok () := fun o ho => hpre o (by simp [ho])
    simp [ThreadSafeSubject.runUpdates, ha, ih ht]

/-- C6 witness: observers [0, 1, 2] with observer 1 raising "boom" on message
"z": observer 0 is invoked, then 1 raises, "boom" propagates, 2 is not invoked. -/
theorem C6_witness :
    ThreadSafeSubject.runUpdates updEx "z" ([0] ++ 1 :: [2]) = ([0] ++ [1], some "boom") :=
  C6_error_propagates_after_prefix updEx [0] [2] 1 "z" "boom"
    (by intro o ho; simp only [List.mem_singleton] at ho; subst ho; rfl)
    rfl

theorem length_detach (st : List Obs) (o : Obs) :
    (ThreadSafeSubject.detach st o).length + (if o ∈ st then 1 else 0) = st.length := by
  by_cases h : o ∈ st
  · have hpos : 0 < st.length := List.length_pos.mpr (List.ne_nil_of_mem h)
    simp only [ThreadSafeSubject.detach, if_pos h, List.length_erase_of_mem h]
    omega
  · simp [ThreadSafeSubject.detach, h]

theorem detach_subset {st : List Obs} {a o : Obs}
    (h : o ∈ ThreadSafeSubject.detach st a) : o ∈ st := by
  by_cases hm : a ∈ st
  · rw [ThreadSafeSubject.detach, if_pos hm] at h
    exact List.mem_of_mem_erase h
  · rwa [ThreadSafeSubject.detach, if_neg hm] at h

theorem runOps_length (ops : List ThreadSafeSubject.Op) (st : List Obs) :
    (ThreadSafeSubject.runOps ops st).final.length
      + (ThreadSafeSubject.runOps ops st).removes
      = st.length + (ThreadSafeSubject.runOps ops st).adds := by
  induction ops generalizing st with
  | nil => simp [ThreadSafeSubject.runOps]
  | cons op rest ih =>
    cases op with
    | subscribeOp o =>
      have h1 := ih (ThreadSafeSubject.attach st o)
      simp only [ThreadSafeSubject.runOps, ThreadSafeSubject.attach,
        List.length_append, List.length_cons, List.length_nil] at h1 ⊢
      omega
    | unsubscribeOp o =>
      have h1 := ih (ThreadSafeSubject.detach st o)
      have h2 := length_detach st o
      simp only [ThreadSafeSubject.runOps] at h1 ⊢
      by_cases hm : o ∈ st <;> simp only [if_pos, if_neg, hm] at h2 ⊢ <;> omega
    | publishOp m =>
      simpa [ThreadSafeSubject.runOps] using ih st

theorem runOps_mem (ops : List ThreadSafeSubject.Op) (st : List Obs) (o : Obs)
    (h : o ∈ (ThreadSafeSubject.runOps ops st).final) :
    o ∈ st ∨ ThreadSafeSubject.Op.subscribeOp o ∈ ops := by
  induction ops generalizing st with
  | nil =>
    left
    simpa [ThreadSafeSubject.runOps] using h
  | cons op rest ih =>
    cases op with
    | subscribeOp a =>
      rcases ih (ThreadSafeSubject.attach st a)
          (by simpa [ThreadSafeSubject.runOps] using h) with hmem | hops
      · rcases (by simpa [ThreadSafeSubject.attach] using hmem : o ∈ st ∨ o = a)
            with hst | rfl
        · exact Or.inl hst
        · exact Or.inr (by simp)
      · exact Or.inr (by simp [hops])
    | unsubscribeOp a =>
      rcases ih (ThreadSafeSubject.detach st a)
          (by simpa [ThreadSafeSubject.runOps] using h) with hmem | hops
      · exact Or.inl (detach_subset hmem)
      · exact Or.inr (by simp [hops])
    | publishOp m =>
      rcases ih st (by simpa [ThreadSafeSubject.runOps] using h) with hmem | hops
      · exact Or.inl hmem
      · exact Or.inr (by simp [hops])

/-- C7: for every serialized interleaving of subscribe/unsubscribe/publish
operations (the registry lock makes each list operation atomic, so any
concurrent history is some such interleaving), the subscriber sequence is
never corrupted: the final length plus the number of successful removes
equals the initial length plus the number of adds (no lost updates), and
every entry of the final sequence was either initially present or
explicitly added by some subscribe in the interleaving. -/
theorem C7_interleavings_preserve_sequence (ops : List ThreadSafeSubject.Op)
    (st : List Obs) (o : Obs)
    (h : o ∈ (ThreadSafeSubject.runOps ops st).final) :
    (ThreadSafeSubject.runOps ops st).final.length
        + (ThreadSafeSubject.runOps ops st).removes
      = st.length + (ThreadSafeSubject.runOps ops st).adds
    ∧ (o ∈ st ∨ ThreadSafeSubject.Op.subscribeOp o ∈ ops) :=
  ⟨runOps_length ops st, runOps_mem ops st o h⟩

/-- C7 witness: a concrete interleaving of two subscribes, a publish, a
successful unsubscribe and a failed unsubscribe, starting from the empty
registry. -/
theorem C7_witness :
    (ThreadSafeSubject.runOps opsEx []).final.length
        + (ThreadSafeSubject.runOps opsEx []).removes
      = (List.nil : List Obs).length + (ThreadSafeSubject.runOps opsEx []).adds
    ∧ ((4 : Obs) ∈ ([] : List Obs) ∨ ThreadSafeSubject.Op.subscribeOp 4 ∈ opsEx) :=
  C7_interleavings_preserve_sequence opsEx [] 4 (by decide)

namespace SingletonMeta

/-- State of `SingletonMeta` in
`src/06. Singleton/threadsafe_singleton_example.py`: the class-level
`_instances` dict mapping each class (its identity modelled as a `Nat`) to its
stored instance, a supply of fresh instance identities, and — to express "the
underlying `__init__` runs at most once" — a per-class count of how many times
`super().__call__` (which constructs and initializes an instance) has run. -/
structure MetaState where
  insts : Nat → Option Nat
  nextId : Nat
  initRuns : Nat → Nat

/-- Process start: `_instances = {}` and no `__init__` has run. -/
def emptyState : MetaState :=
  ⟨fun _ => none, 0, fun _ => 0⟩

/-- `SingletonMeta.__call__(cls, ...)`: `if cls not in cls._instances:` (the
lock and the re-check make the whole section atomic, so sequentially the
double check collapses to a single check) `cls._instances[cls] =
super().__call__(...)`; finally `return cls._instances[cls]`. -/
def call (s : MetaState) (cls : Nat) : MetaState × Nat :=
  match s.insts cls with
  | some inst => (s, inst)
  | none =>
    (⟨fun c => if c = cls then some s.nextId else s.insts c,
      s.nextId + 1,
      fun c => if c = cls then s.initRuns c + 1 else s.initRuns c⟩,
     s.nextId)

/-- A serialized sequence of constructor calls (each `__call__` is atomic
thanks to the double-checked lock), returning the final state. -/
def callMany : List Nat → MetaState → MetaState
  | [], s => s
  | c :: cs, s => callMany cs (call s c).1

theorem call_insts_self (s : MetaState) (cls : Nat) :
    ((call s cls).1).insts cls = some (call s cls).2 := by
  cases h : s.insts cls with
  | some i => simp [call, h]
  | none => simp [call, h]

theorem call_of_some {s : MetaState} {cls i : Nat} (h : s.insts cls = some i) :
    call s cls = (s, i) := by
  simp [call, h]

theorem callMany_insts_persist (cs : List Nat) (s : MetaState) (cls i : Nat)
    (h : s.insts cls = some i) : (callMany cs s).insts cls = some i := by
  induction cs generalizing s with
  | nil => exact h
  | cons a t ih =>
    apply ih
    cases ha : s.insts a with
    | some j => simpa [call, ha] using h
    | none =>
      by_cases hc : cls = a
      · subst hc; rw [h] at ha; cases ha
      · simpa [call, ha, hc] using h

/-- Invariant of states reachable from `emptyState`: each class's `__init__`
has run at most once, and has not run at all while the class is absent from
`_instances`. -/
def MetaInv (s : MetaState) : Prop :=
  ∀ c, s.initRuns c ≤ 1 ∧ (s.insts c = none → s.initRuns c = 0)

theorem metaInv_empty : MetaInv emptyState := by
  intro c
  exact ⟨by simp [emptyState], fun _ => rfl⟩

theorem metaInv_call (s : MetaState) (a : Nat) (hinv : MetaInv s) :
    MetaInv (call s a).1 := by
  intro c
  cases ha : s.insts a with
  | some j => simpa [call, ha] using hinv c
  | none =>
    by_cases hc : c = a
    · subst hc
      have h0 : s.initRuns c = 0 := (hinv c).2 ha
      refine ⟨?_, ?_⟩
      · simp [call, ha, h0]
      · intro habs
        simp [call, ha] at habs
    · simpa [call, ha, hc] using hinv c

theorem callMany_initRuns_le_one (cs : List Nat) (s : MetaState)
    (hinv : MetaInv s) : ∀ c, (callMany cs s).initRuns c ≤ 1 := by
  induction cs generalizing s with
  | nil => exact fun c => (hinv c).1
  | cons a t ih => exact ih (call s a).1 (metaInv_call s a hinv)

end SingletonMeta

namespace SingletonDecorator

/-- State of one application of the `singleton` decorator in
`src/06. Singleton/decorator_singleton_example.py`: the closed-over
`instances` dict holds at most one key — the single decorated class `cls` —
so it is modelled as an `Option`; plus a fresh-identity supply and the number
of times `cls(...)` (construction + `__init__`) has run. -/
structure DecState where
  inst? : Option Nat
  nextId : Nat
  initRuns : Nat

/-- Decoration time: `instances = {}`. -/
def emptyState : DecState :=
  ⟨none, 0, 0⟩

/-- `get_instance(...)`: `if cls not in instances:` (atomic via the
double-checked lock) `instances[cls] = cls(*args, **kwargs)`; then
`return instances[cls]`. -/
def get_instance (s : DecState) : DecState × Nat :=
  match s.inst? with
  | some i => (s, i)
  | none => (⟨some s.nextId, s.nextId + 1, s.initRuns + 1⟩, s.nextId)

/-- `n` further serialized calls of the decorated constructor. -/
def get_many : Nat → DecState → DecState
  | 0, s => s
  | n + 1, s => get_many n (get_instance s).1

theorem get_of_some {s : DecState} {i : Nat} (h : s.inst? = some i) :
    get_instance s = (s, i) := by
  simp [get_instance, h]

theorem get_instance_inst_self (s : DecState) :
    ((get_instance s).1).inst? = some (get_instance s).2 := by
  cases h : s.inst? with
  | some i => simp [get_instance, h]
  | none => simp [get_instance, h]

theorem get_many_inst_persist (n : Nat) (s : DecState) (i : Nat)
    (h : s.inst? = some i) : (get_many n s).inst? = some i := by
  induction n generalizing s with
  | zero => exact h
  | succ k ih =>
    apply ih
    simp [get_instance, h]

/-- Invariant of decorator states reachable from `emptyState`. -/
def DecInv (s : DecState) : Prop :=
  s.initRuns ≤ 1 ∧ (s.inst? = none → s.initRuns = 0)

theorem decInv_empty : DecInv emptyState :=
  ⟨by simp [emptyState], fun _ => rfl⟩

theorem decInv_get (s : DecState) (hinv : DecInv s) : DecInv (get_instance s).1 := by
  cases h : s.inst? with
  | some i => simpa [get_instance, h] using hinv
  | none =>
    refine ⟨?_, ?_⟩
    · simp [get_instance, h, hinv.2 h]
    · intro habs
      simp [get_instance, h] at habs

theorem get_many_initRuns_le_one (n : Nat) (s : DecState) (hinv : DecInv s) :
    (get_many n s).initRuns ≤ 1 := by
  induction n generalizing s with
  | zero => exact hinv.1
  | succ k ih => exact ih (get_instance s).1 (decInv_get s hinv)

end SingletonDecorator

/-- C8: both singleton mechanisms guarantee at most one instance per class.
For the metaclass: after a first constructor call of class `cls` from any
state, any further serialized sequence of constructor calls (of any classes)
followed by another call of `cls` returns the identical instance, and from
process start any call sequence runs `cls.__init__` at most once.  For the
`@singleton` decorator: after a first call, any number of further calls
returns the identical instance, and `__init__` runs at most once. -/
theorem C8_singleton_at_most_one_instance (s : SingletonMeta.MetaState)
    (cls : Nat) (cs cs' : List Nat) (d : SingletonDecorator.DecState) (n : Nat) :
    (SingletonMeta.call (SingletonMeta.callMany cs' (SingletonMeta.call s cls).1) cls).2
      = (SingletonMeta.call s cls).2
    ∧ (SingletonMeta.callMany cs SingletonMeta.emptyState).initRuns cls ≤ 1
    ∧ (SingletonDecorator.get_instance
        (SingletonDecorator.get_many n (SingletonDecorator.get_instance d).1)).2
      = (SingletonDecorator.get_instance d).2
    ∧ (SingletonDecorator.get_many n SingletonDecorator.emptyState).initRuns ≤ 1 := by
  refine ⟨?_, ?_, ?_, ?_⟩
  · have hpers := SingletonMeta.callMany_insts_persist cs' (SingletonMeta.call s cls).1
      cls (SingletonMeta.call s cls).2 (SingletonMeta.call_insts_self s cls)
    rw [SingletonMeta.call_of_some hpers]
  · exact SingletonMeta.callMany_initRuns_le_one cs SingletonMeta.emptyState
      SingletonMeta.metaInv_empty cls
  · have hpers := SingletonDecorator.get_many_inst_persist n
      (SingletonDecorator.get_instance d).1 (SingletonDecorator.get_instance d).2
      (SingletonDecorator.get_instance_inst_self d)
    rw [SingletonDecorator.get_of_some hpers]
  · exact SingletonDecorator.get_many_initRuns_le_one n SingletonDecorator.emptyState
      SingletonDecorator.decInv_empty

/-- C9: the basic (non-thread-safe) `Subject.detach` performs a bare
`list.remove`, which raises `ValueError` when the observer is absent —
modelled as returning `none` — whereas `ThreadSafeSubject.detach` guards the
removal with a membership test and is a silent no-op on the same input. -/
theorem C9_simple_detach_raises_on_absent (st : List Obs) (o : Obs)
    (h : o ∉ st) :
    SimpleSubject.detach st o = none ∧ ThreadSafeSubject.detach st o = st := by
  constructor
  · simp [SimpleSubject.detach, h]
  · simp [ThreadSafeSubject.detach, h]

/-- C9 witness: detaching the never-attached handle 0 from registry [1, 2]. -/
theorem C9_witness :
    SimpleSubject.detach [1, 2] 0 = none
    ∧ ThreadSafeSubject.detach [1, 2] 0 = [1, 2] :=
  C9_simple_detach_raises_on_absent [1, 2] 0 (by decide)

/-- C10: `detach` removes exactly the first occurrence of the handle and
leaves every other entry, and their relative order, unchanged: on a registry
`pre ++ H :: post` whose first occurrence of `H` is the displayed one, the
result is `pre ++ post`.  In particular, when `H` also occurs in `post` (it
was attached twice), that occurrence remains registered. -/
theorem C10_detach_removes_first_occurrence (pre post : List Obs) (H : Obs)
    (h : H ∉ pre) :
    ThreadSafeSubject.detach (pre ++ H :: post) H = pre ++ post := by
  have hmem : H ∈ pre ++ H :: post := by simp
  rw [ThreadSafeSubject.detach, if_pos hmem, List.erase_append_right _ h,
    List.erase_cons_head]

/-- C10 witness: handle 2 attached twice in [1, 2, 3, 2]; one detach removes
only the first occurrence, the second stays and order is preserved. -/
theorem C10_witness :
    ThreadSafeSubject.detach [1, 2, 3, 2] 2 = [1, 3, 2] :=
  C10_detach_removes_first_occurrence [1] [3, 2] 2 (by decide)
